import Mathlib

/-!
Verification of the module registry and event-dispatch engine of
`ScriptManager` (src/src/ScriptManager.h).

The C++ class keeps two pieces of state protected by the Python GIL:

* `loaded_modules_`  : `unordered_map<string, shared_ptr<ScriptModule>>`,
  the Registry mapping a logical module name to its record;
* `module_function_cache_` : `unordered_map<string, vector<shared_ptr<ScriptModule>>>`,
  the Function Cache mapping an event name to the ordered list of records
  known to expose a handler of that name.

The embedding below models the maps as association lists (the C++ maps are
unordered; the only order the claims depend on is the order *inside* a cache
entry's vector, which the association-list values model exactly).  The
foreign Python runtime is an external collaborator; it is modelled by

* a per-handle attribute table `attrs : Nat → List String` carried in the
  state (a module handle is an opaque `Nat`; `py::hasattr(*m, e)` becomes
  `(attrs m.handle).contains e`), and
* an oracle `PyEnv` saying what `py::module::import`, `module_.reload` and
  a handler invocation do: `importSpec name` is `some attrList` when
  the import succeeds and the imported module exposes exactly `attrList`
  (`none` when the import raises); `reloadSpec handle` likewise for
  `reload()`; `raises handle event` tells whether calling the handler
  throws `py::error_already_set`.

Invocation results are discarded by the C++ code; logging is write-only.
Neither affects the Registry or the Cache, so they are not part of the
state.  Filesystem path handling (`std::filesystem::absolute`, `relative`,
`stem`) is an external collaborator: `load_script` below receives the
already-derived module name and path strings, and `load_scripts` receives
the list of `.py` files produced by the recursive directory walk (an
absent directory yields the empty list and an early return).
-/

/-- One loaded script: `ScriptModule` from Models/ScriptModule.h — a logical
name, the opaque handle of the imported `py::module_`, and its paths. -/
structure ScriptModule where
  name : String
  handle : Nat
  absolutePath : String
  relativePath : String
deriving DecidableEq, Repr

/-- Oracle for the foreign Python runtime (external collaborator, spec §4.1):
what importing, reloading and invoking do. -/
structure PyEnv where
  importSpec : String → Option (List String)
  reloadSpec : Nat → Option (List String)
  raises : Nat → String → Bool

/-- The `ScriptManager` state: Registry (`loaded_modules_`), Function Cache
(`module_function_cache_`), the runtime's per-handle attribute table, and a
counter supplying fresh module handles. -/
structure ManagerState where
  loadedModules : List (String × ScriptModule)
  moduleFunctionCache : List (String × List ScriptModule)
  attrs : Nat → List String
  nextHandle : Nat

/-- The state of a freshly constructed `ScriptManager` singleton: both maps
empty, no module imported yet. -/
def initState : ManagerState :=
  { loadedModules := []
    moduleFunctionCache := []
    attrs := fun _ => []
    nextHandle := 0 }

/-- Association-list lookup: `map.find(k)`.  Returns the first binding. -/
def lookupAssoc {α : Type} : List (String × α) → String → Option α
  | [], _ => none
  | (k', v) :: rest, k => if k' = k then some v else lookupAssoc rest k

/-- Association-list insert-or-assign: `map[k] = v` on `unordered_map`
(replaces the existing binding, otherwise adds one). -/
def insertAssoc {α : Type} : List (String × α) → String → α → List (String × α)
  | [], k, v => [(k, v)]
  | (k', v') :: rest, k, v =>
      if k' = k then (k, v) :: rest else (k', v') :: insertAssoc rest k v

/-- `std::find_if(modules.begin(), modules.end(), …name equality…)` followed
by `modules.erase(found)`: remove the first record with the given name. -/
def eraseFirstByName (n : String) : List ScriptModule → List ScriptModule
  | [] => []
  | m :: rest => if m.name = n then rest else m :: eraseFirstByName n rest

/-- The removal loop of `reload_script`: erase the first record with the
given name from every cache entry. -/
def removeFromAllEntries (n : String) (cache : List (String × List ScriptModule)) :
    List (String × List ScriptModule) :=
  cache.map fun entry => (entry.1, eraseFirstByName n entry.2)

/-- The cache-warm loop of `load_script` / `reload_script`: for every cached
event name the module exposes (`py::hasattr`), `push_back` the record. -/
def addToMatchingEntries (attrList : List String) (script : ScriptModule)
    (cache : List (String × List ScriptModule)) : List (String × List ScriptModule) :=
  cache.map fun entry =>
    (entry.1, if attrList.contains entry.1 then entry.2 ++ [script] else entry.2)

/-- `ScriptManager::load_script` (ScriptManager.h:54-99).  `moduleName` is the
stem of the path relative to the working directory; the import (`none` =
`py::error_already_set` raised) happens before any mutation, so a
failed import is caught, logged and leaves the state unchanged.  On success the
record is stored in the Registry (`loaded_modules_[module_name] = script`,
an insert-or-assign) and appended to every cache entry whose event name the
newly imported module exposes. -/
def loadScript (env : PyEnv) (moduleName absolutePath relativePath : String)
    (s : ManagerState) : ManagerState :=
  match env.importSpec moduleName with
  | none => s
  | some attrList =>
      let script : ScriptModule :=
        { name := moduleName
          handle := s.nextHandle
          absolutePath := absolutePath
          relativePath := relativePath }
      { loadedModules := insertAssoc s.loadedModules moduleName script
        moduleFunctionCache := addToMatchingEntries attrList script s.moduleFunctionCache
        attrs := fun h => if h = s.nextHandle then attrList else s.attrs h
        nextHandle := s.nextHandle + 1 }

/-- `ScriptManager::reload_script` (ScriptManager.h:105-157).  An unknown
name logs and returns.  Otherwise the record is first erased from every
cache entry (by name), then `reload()` is attempted: on failure (`none`)
the exception is caught and logged, leaving the Registry untouched and the
cache entries without the record; on success the module's attribute table
is replaced and the same record is appended to every cache entry whose
event name the reloaded module now exposes. -/
def reloadScript (env : PyEnv) (moduleName : String) (s : ManagerState) : ManagerState :=
  match lookupAssoc s.loadedModules moduleName with
  | none => s
  | some script =>
      let cacheRemoved := removeFromAllEntries script.name s.moduleFunctionCache
      match env.reloadSpec script.handle with
      | none => { s with moduleFunctionCache := cacheRemoved }
      | some newAttrs =>
          { s with
            moduleFunctionCache := addToMatchingEntries newAttrs script cacheRemoved
            attrs := fun h => if h = script.handle then newAttrs else s.attrs h }

/-- `ScriptManager::load_scripts` (ScriptManager.h:163-184): the recursive
directory walk yields a list of `(moduleName, absolutePath, relativePath)`
descriptors of the regular `.py` files (empty when the directory is
missing, which only logs); `load_script` runs on each in walk order. -/
def loadScripts (env : PyEnv) (files : List (String × String × String))
    (s : ManagerState) : ManagerState :=
  files.foldl (fun st f => loadScript env f.1 f.2.1 f.2.2 st) s

/-- The cache-hit loop of `dispatch_event` (ScriptManager.h:202-229): walk
the copied entry in order; re-verify `py::hasattr` for each record and
invoke the handler when it still exists.  A handler that raises is caught
per-iteration (logged) and the loop continues, so the returned invocation
trace — the records whose handler was called, in call order — contains
every record that passed the attribute check, raising or not. -/
def dispatchHitLoop (attrs : Nat → List String) (event : String) :
    List ScriptModule → List ScriptModule
  | [] => []
  | m :: rest =>
      if (attrs m.handle).contains event then
        m :: dispatchHitLoop attrs event rest
      else
        dispatchHitLoop attrs event rest

/-- The cache-miss loop of `dispatch_event` (ScriptManager.h:233-269): walk
every Registry record; when `py::hasattr` reports the event, invoke the
handler and then `valid_modules.push_back(script)`.  The `push_back` sits
*after* the invocation inside the `try` block, so a raising handler jumps
to the `catch` and is *not* collected.  Returns
`(invocation trace, valid_modules)`. -/
def dispatchMissLoop (env : PyEnv) (attrs : Nat → List String) (event : String) :
    List ScriptModule → List ScriptModule × List ScriptModule
  | [] => ([], [])
  | script :: rest =>
      if (attrs script.handle).contains event then
        if env.raises script.handle event then
          (script :: (dispatchMissLoop env attrs event rest).1,
           (dispatchMissLoop env attrs event rest).2)
        else
          (script :: (dispatchMissLoop env attrs event rest).1,
           script :: (dispatchMissLoop env attrs event rest).2)
      else
        dispatchMissLoop env attrs event rest

/-- Result of one `dispatch_event` call: the state afterwards, the records
whose handler was invoked (in call order), and whether the Registry was
traversed (the cache-miss branch). -/
structure DispatchResult where
  state : ManagerState
  invoked : List ScriptModule
  scannedRegistry : Bool

/-- `ScriptManager::dispatch_event` (ScriptManager.h:192-277).  A cache hit
(key present, even with an empty vector) iterates over a copy of the entry
and mutates nothing.  A cache miss traverses the whole Registry and then
stores `valid_modules` under the event key only when non-empty. -/
def dispatchEvent (env : PyEnv) (event : String) (s : ManagerState) : DispatchResult :=
  match lookupAssoc s.moduleFunctionCache event with
  | some cachedModules =>
      { state := s
        invoked := dispatchHitLoop s.attrs event cachedModules
        scannedRegistry := false }
  | none =>
      let scan := dispatchMissLoop env s.attrs event (s.loadedModules.map Prod.snd)
      { state :=
          { s with
            moduleFunctionCache :=
              if scan.2.isEmpty then s.moduleFunctionCache
              else s.moduleFunctionCache ++ [(event, scan.2)] }
        invoked := scan.1
        scannedRegistry := true }

/-- The records a `dispatch_event` call iterates over: the cached entry on a
hit, all Registry records on a miss. -/
def consideredRecords (s : ManagerState) (event : String) : List ScriptModule :=
  match lookupAssoc s.moduleFunctionCache event with
  | some mods => mods
  | none => s.loadedModules.map Prod.snd

/-- The cache-hit loop of `dispatch_event` again, now with re-entrancy made
explicit: each handler invocation may call back into the host and mutate the
`ScriptManager` state (`effect m st` is the state after `m`'s handler ran,
covering both normal return and a caught `py::error_already_set`).  The loop
walks `cached_function_modules`, the *copy* of the cache entry taken at
line 200 of ScriptManager.h, while `py::hasattr` is re-verified against the
current runtime state. -/
def dispatchHitLoopEffect (effect : ScriptModule → ManagerState → ManagerState)
    (event : String) : List ScriptModule → ManagerState → ManagerState × List ScriptModule
  | [], st => (st, [])
  | m :: rest, st =>
      if (st.attrs m.handle).contains event then
        ((dispatchHitLoopEffect effect event rest (effect m st)).1,
         m :: (dispatchHitLoopEffect effect event rest (effect m st)).2)
      else
        dispatchHitLoopEffect effect event rest st

/-- The cache-hit branch of `dispatch_event` with re-entrant handlers:
`const auto cached_function_modules = it->second;` copies the entry before
the loop, so the iteration sequence is fixed at call entry.  Returns the
final state and the invocation trace. -/
def dispatchEventReentrantHit (effect : ScriptModule → ManagerState → ManagerState)
    (event : String) (s : ManagerState) : ManagerState × List ScriptModule :=
  match lookupAssoc s.moduleFunctionCache event with
  | some cachedModules => dispatchHitLoopEffect effect event cachedModules s
  | none => (s, [])

/-- One host-facing operation (spec §6), with the filesystem collaborator's
contribution (derived names/paths, directory-walk result) inlined. -/
inductive HostOp where
  | loadOp (moduleName absolutePath relativePath : String)
  | loadAllOp (files : List (String × String × String))
  | reloadOp (moduleName : String)
  | dispatchOp (event : String)

/-- Apply one host operation to the state. -/
def step (env : PyEnv) (op : HostOp) (s : ManagerState) : ManagerState :=
  match op with
  | .loadOp n a r => loadScript env n a r s
  | .loadAllOp files => loadScripts env files s
  | .reloadOp n => reloadScript env n s
  | .dispatchOp e => (dispatchEvent env e s).state

/-- Run a sequence of host operations, each under its own runtime oracle
(script files may change between calls). -/
def runOps : List (PyEnv × HostOp) → ManagerState → ManagerState
  | [], s => s
  | (env, op) :: rest, s => runOps rest (step env op s)

/-- A state the host can reach from startup by some sequence of calls. -/
def Reachable (s : ManagerState) : Prop :=
  ∃ ops : List (PyEnv × HostOp), runOps ops initState = s

/-- Cache-is-a-subset (spec §8, invariant 1): every record referenced from a
cache entry is present in the Registry under its name. -/
def cacheSubset (s : ManagerState) : Prop :=
  ∀ p ∈ s.moduleFunctionCache, ∀ m ∈ p.2, lookupAssoc s.loadedModules m.name ≠ none

/-- Registry well-formedness: each record is filed under its own name. -/
def registryWF (s : ManagerState) : Prop :=
  ∀ p ∈ s.loadedModules, (Prod.snd p).name = p.1

/-- Registry keys are unique (`unordered_map` semantics). -/
def registryKeysNodup (s : ManagerState) : Prop :=
  (s.loadedModules.map Prod.fst).Nodup

/-- Per-entry uniqueness (spec §3): within each cache entry, record names
are pairwise distinct — no module appears twice for one event. -/
def entryNamesUnique (s : ManagerState) : Prop :=
  ∀ p ∈ s.moduleFunctionCache, (p.2.map ScriptModule.name).Nodup

/-- How many records of a list carry the given name. -/
def countNamed (n : String) (mods : List ScriptModule) : Nat :=
  (mods.filter fun m => m.name = n).length

/-- A `load_script` call from state `s` is not a duplicate-name overwrite:
either the import fails (nothing is mutated) or the stem is a fresh name. -/
def loadOkFrom (env : PyEnv) (s : ManagerState) (n : String) : Prop :=
  env.importSpec n = none ∨ lookupAssoc s.loadedModules n = none

/-- No duplicate-name `load_script` occurs along a directory-walk load. -/
def NoDupLoadFiles (env : PyEnv) : List (String × String × String) → ManagerState → Prop
  | [], _ => True
  | f :: rest, s =>
      loadOkFrom env s f.1 ∧ NoDupLoadFiles env rest (loadScript env f.1 f.2.1 f.2.2 s)

/-- The per-operation no-duplicate-load side condition. -/
def NoDupLoadStep (env : PyEnv) (op : HostOp) (s : ManagerState) : Prop :=
  match op with
  | .loadOp n _ _ => loadOkFrom env s n
  | .loadAllOp files => NoDupLoadFiles env files s
  | .reloadOp _ => True
  | .dispatchOp _ => True

/-- No duplicate-name `load_script` occurs anywhere along a run. -/
def NoDupLoadRun : List (PyEnv × HostOp) → ManagerState → Prop
  | [], _ => True
  | (env, op) :: rest, s => NoDupLoadStep env op s ∧ NoDupLoadRun rest (step env op s)

/-- The part of the state invariant that holds unconditionally: records are
filed under their own names and the Cache references only Registry names. -/
def SubInv (s : ManagerState) : Prop :=
  registryWF s ∧ cacheSubset s

/-- The full state invariant (spec §3): well-formed Registry with unique
keys, Cache a subset of the Registry, and per-entry name uniqueness. -/
def StateInv (s : ManagerState) : Prop :=
  registryWF s ∧ registryKeysNodup s ∧ cacheSubset s ∧ entryNamesUnique s

/-! ### Concrete scenarios used by counterexamples and witnesses -/

/-- Runtime oracle: scripts `a` and `b` both define `on_tick`; `a`'s handler
(handle 0) raises when invoked, `b`'s does not; reloads fail. -/
def envAB : PyEnv :=
  { importSpec := fun n => if n = "a" ∨ n = "b" then some ["on_tick"] else none
    reloadSpec := fun _ => none
    raises := fun h _ => h == 0 }

/-- State after `load_script("s/a.py")` from startup under `envAB`. -/
def stateA : ManagerState := loadScript envAB "a" "/s/a.py" "s/a.py" initState

/-- State after loading `a` and then `b` under `envAB`. -/
def stateAB : ManagerState := loadScript envAB "b" "/s/b.py" "s/b.py" stateA

/-- The Registry record created for `a` (handle 0). -/
def recA : ScriptModule := ⟨"a", 0, "/s/a.py", "s/a.py"⟩

/-- The Registry record created for `b` (handle 1). -/
def recB : ScriptModule := ⟨"b", 1, "/s/b.py", "s/b.py"⟩

/-- Runtime oracle where every import yields a module exposing `on_tick`,
no handler raises, and reloads fail. -/
def envDup : PyEnv :=
  { importSpec := fun _ => some ["on_tick"]
    reloadSpec := fun _ => none
    raises := fun _ _ => false }

/-- Load `a`, dispatch `on_tick` (warming the cache), then `load_script` a
file with the same stem `a` again: the duplicate-name overwrite path. -/
def stateDupA : ManagerState :=
  loadScript envDup "a" "/s/a.py" "s/a.py"
    ((dispatchEvent envDup "on_tick" (loadScript envDup "a" "/s/a.py" "s/a.py" initState)).state)

/-- Runtime oracle where imports yield `on_tick` modules and a reload
succeeds but the reloaded source now defines `on_join` instead. -/
def envSwap : PyEnv :=
  { importSpec := fun _ => some ["on_tick"]
    reloadSpec := fun _ => some ["on_join"]
    raises := fun _ _ => false }

/-- Load `a` and warm the `on_tick` cache entry under `envSwap`. -/
def stateSwapWarm : ManagerState :=
  (dispatchEvent envSwap "on_tick" (loadScript envSwap "a" "/s/a.py" "s/a.py" initState)).state

/-- A state whose cache holds the key `on_tick` with an empty list, as left
behind by a reload that dropped the only subscriber's handler. -/
def stateEmptyEntry : ManagerState :=
  reloadScript envSwap "a" stateSwapWarm

/-! ### Association-list lemmas -/

theorem lookupAssoc_mem {α : Type} {l : List (String × α)} {k : String} {v : α}
    (h : lookupAssoc l k = some v) : (k, v) ∈ l := by
  induction l with
  | nil => simp [lookupAssoc] at h
  | cons p rest ih =>
    obtain ⟨k', v'⟩ := p
    by_cases hk : k' = k
    · subst hk
      simp [lookupAssoc] at h
      simp [h]
    · simp [lookupAssoc, hk] at h
      exact List.mem_cons_of_mem _ (ih h)

theorem lookupAssoc_ne_none_of_mem {α : Type} {l : List (String × α)} {k : String} {v : α}
    (h : (k, v) ∈ l) : lookupAssoc l k ≠ none := by
  induction l with
  | nil => cases h
  | cons p rest ih =>
    obtain ⟨k', v'⟩ := p
    rcases List.mem_cons.mp h with h1 | h1
    · cases h1
      simp [lookupAssoc]
    · by_cases hk : k' = k
      · simp [lookupAssoc, hk]
      · simpa [lookupAssoc, hk] using ih h1

theorem lookupAssoc_insert_self {α : Type} (l : List (String × α)) (k : String) (v : α) :
    lookupAssoc (insertAssoc l k v) k = some v := by
  induction l with
  | nil => simp [insertAssoc, lookupAssoc]
  | cons p rest ih =>
    obtain ⟨k', v'⟩ := p
    by_cases hk : k' = k
    · simp [insertAssoc, hk, lookupAssoc]
    · simp [insertAssoc, hk, lookupAssoc, ih]

theorem lookupAssoc_insert_ne_none {α : Type} {l : List (String × α)} {k' : String}
    (k : String) (v : α) (h : lookupAssoc l k' ≠ none) :
    lookupAssoc (insertAssoc l k v) k' ≠ none := by
  induction l with
  | nil => simp [lookupAssoc] at h
  | cons p rest ih =>
    obtain ⟨k1, v1⟩ := p
    by_cases hk1 : k1 = k
    · subst hk1
      by_cases hk2 : k1 = k'
      · subst hk2
        simp [insertAssoc, lookupAssoc]
      · simp [lookupAssoc, hk2] at h
        simp [insertAssoc, lookupAssoc, hk2, h]
    · by_cases hk2 : k1 = k'
      · subst hk2
        simp [insertAssoc, hk1, lookupAssoc]
      · simp [lookupAssoc, hk2] at h
        simpa [insertAssoc, hk1, lookupAssoc, hk2] using ih h

theorem lookupAssoc_append_some {α : Type} {l t : List (String × α)} {k : String} {v : α}
    (h : lookupAssoc l k = some v) : lookupAssoc (l ++ t) k = some v := by
  induction l with
  | nil => simp [lookupAssoc] at h
  | cons p rest ih =>
    obtain ⟨k', v'⟩ := p
    by_cases hk : k' = k
    · subst hk
      simp [lookupAssoc] at h ⊢
      exact h
    · simp [lookupAssoc, hk] at h ⊢
      exact ih h

theorem lookupAssoc_append_none {α : Type} {l : List (String × α)} {k : String}
    (t : List (String × α)) (h : lookupAssoc l k = none) :
    lookupAssoc (l ++ t) k = lookupAssoc t k := by
  induction l with
  | nil => simp
  | cons p rest ih =>
    obtain ⟨k', v'⟩ := p
    by_cases hk : k' = k
    · simp [lookupAssoc, hk] at h
    · simp [lookupAssoc, hk] at h ⊢
      exact ih h

theorem lookupAssoc_map_entry (g : String → List ScriptModule → List ScriptModule)
    (c : List (String × List ScriptModule)) (e : String) :
    lookupAssoc (c.map fun p => (p.1, g p.1 p.2)) e = (lookupAssoc c e).map (g e) := by
  induction c with
  | nil => simp [lookupAssoc]
  | cons p rest ih =>
    obtain ⟨k, mods⟩ := p
    by_cases hk : k = e
    · subst hk
      simp [lookupAssoc]
    · simp [lookupAssoc, hk, ih]

theorem lookupAssoc_removeFromAllEntries (n : String)
    (c : List (String × List ScriptModule)) (e : String) :
    lookupAssoc (removeFromAllEntries n c) e = (lookupAssoc c e).map (eraseFirstByName n) := by
  simpa [removeFromAllEntries] using
    lookupAssoc_map_entry (fun _ mods => eraseFirstByName n mods) c e

theorem lookupAssoc_addToMatchingEntries (attrList : List String) (script : ScriptModule)
    (c : List (String × List ScriptModule)) (e : String) :
    lookupAssoc (addToMatchingEntries attrList script c) e =
      (lookupAssoc c e).map
        (fun mods => if attrList.contains e then mods ++ [script] else mods) := by
  simpa [addToMatchingEntries] using
    lookupAssoc_map_entry
      (fun e' mods => if attrList.contains e' then mods ++ [script] else mods) c e

/-! ### Lemmas about the per-entry record lists -/

theorem eraseFirstByName_sublist (n : String) (l : List ScriptModule) :
    (eraseFirstByName n l).Sublist l := by
  induction l with
  | nil => simp [eraseFirstByName]
  | cons m rest ih =>
    by_cases hm : m.name = n
    · simp [eraseFirstByName, hm]
    · simpa [eraseFirstByName, hm] using ih.cons₂ m

theorem mem_eraseFirstByName_of_ne {m : ScriptModule} {l : List ScriptModule} {n : String}
    (hm : m ∈ l) (hne : m.name ≠ n) : m ∈ eraseFirstByName n l := by
  induction l with
  | nil => cases hm
  | cons m' rest ih =>
    rcases List.mem_cons.mp hm with h1 | h1
    · subst h1
      simp [eraseFirstByName, hne]
    · by_cases hm' : m'.name = n
      · simpa [eraseFirstByName, hm'] using h1
      · simpa [eraseFirstByName, hm'] using Or.inr (ih h1)

theorem not_named_of_mem_eraseFirstByName {l : List ScriptModule} {n : String}
    (hnodup : (l.map ScriptModule.name).Nodup) :
    ∀ m ∈ eraseFirstByName n l, m.name ≠ n := by
  induction l with
  | nil => intro m hm; cases hm
  | cons m' rest ih =>
    rw [List.map_cons, List.nodup_cons] at hnodup
    intro m hm
    by_cases hm' : m'.name = n
    · rw [eraseFirstByName, if_pos hm'] at hm
      intro hmn
      have hmem : m.name ∈ List.map ScriptModule.name rest := List.mem_map_of_mem _ hm
      rw [hmn, ← hm'] at hmem
      exact hnodup.1 hmem
    · rw [eraseFirstByName, if_neg hm'] at hm
      rcases List.mem_cons.mp hm with h1 | h1
      · subst h1; exact hm'
      · exact ih hnodup.2 m h1

theorem names_nodup_eraseFirstByName {l : List ScriptModule} (n : String)
    (hnodup : (l.map ScriptModule.name).Nodup) :
    ((eraseFirstByName n l).map ScriptModule.name).Nodup :=
  hnodup.sublist ((eraseFirstByName_sublist n l).map ScriptModule.name)

theorem dispatchHitLoop_mem {attrs : Nat → List String} {event : String}
    {m : ScriptModule} {l : List ScriptModule}
    (hm : m ∈ l) (hattr : (attrs m.handle).contains event = true) :
    m ∈ dispatchHitLoop attrs event l := by
  induction l with
  | nil => cases hm
  | cons m' rest ih =>
    rw [dispatchHitLoop]
    rcases List.mem_cons.mp hm with h1 | h1
    · subst h1
      rw [if_pos hattr]
      exact List.mem_cons_self _ _
    · by_cases hc : (attrs m'.handle).contains event = true
      · rw [if_pos hc]
        exact List.mem_cons_of_mem _ (ih h1)
      · rw [if_neg hc]
        exact ih h1

theorem dispatchMissLoop_invoked_mem {env : PyEnv} {attrs : Nat → List String}
    {event : String} {m : ScriptModule} {l : List ScriptModule}
    (hm : m ∈ l) (hattr : (attrs m.handle).contains event = true) :
    m ∈ (dispatchMissLoop env attrs event l).1 := by
  induction l with
  | nil => cases hm
  | cons m' rest ih =>
    rw [dispatchMissLoop]
    rcases List.mem_cons.mp hm with h1 | h1
    · subst h1
      rw [if_pos hattr]
      by_cases hr : env.raises m.handle event = true
      · rw [if_pos hr]
        exact List.mem_cons_self _ _
      · rw [if_neg hr]
        exact List.mem_cons_self _ _
    · by_cases hc : (attrs m'.handle).contains event = true
      · rw [if_pos hc]
        by_cases hr : env.raises m'.handle event = true
        · rw [if_pos hr]
          exact List.mem_cons_of_mem _ (ih h1)
        · rw [if_neg hr]
          exact List.mem_cons_of_mem _ (ih h1)
      · rw [if_neg hc]
        exact ih h1

theorem dispatchMissLoop_valid_sublist (env : PyEnv) (attrs : Nat → List String)
    (event : String) (l : List ScriptModule) :
    (dispatchMissLoop env attrs event l).2.Sublist l := by
  induction l with
  | nil => simp [dispatchMissLoop]
  | cons m rest ih =>
    rw [dispatchMissLoop]
    by_cases hc : (attrs m.handle).contains event = true
    · rw [if_pos hc]
      by_cases hr : env.raises m.handle event = true
      · rw [if_pos hr]
        exact ih.cons m
      · rw [if_neg hr]
        exact ih.cons₂ m
    · rw [if_neg hc]
      exact ih.cons m

theorem dispatchMissLoop_valid_spec {env : PyEnv} {attrs : Nat → List String}
    {event : String} {l : List ScriptModule} :
    ∀ m ∈ (dispatchMissLoop env attrs event l).2,
      (attrs m.handle).contains event = true ∧ env.raises m.handle event = false := by
  induction l with
  | nil => intro m hm; simp [dispatchMissLoop] at hm
  | cons m' rest ih =>
    intro m hm
    rw [dispatchMissLoop] at hm
    by_cases hc : (attrs m'.handle).contains event = true
    · rw [if_pos hc] at hm
      by_cases hr : env.raises m'.handle event = true
      · rw [if_pos hr] at hm
        exact ih m hm
      · rw [if_neg hr] at hm
        rcases List.mem_cons.mp hm with h1 | h1
        · subst h1
          exact ⟨hc, Bool.not_eq_true _ ▸ hr⟩
        · exact ih m h1
    · rw [if_neg hc] at hm
      exact ih m hm

/-! ### Further helper lemmas -/

theorem dispatch_keeps_cache_keys (env : PyEnv) (E E'' : String) (s : ManagerState)
    {mods : List ScriptModule}
    (hmods : lookupAssoc s.moduleFunctionCache E'' = some mods) :
    ∃ mods', lookupAssoc (dispatchEvent env E s).state.moduleFunctionCache E'' = some mods' := by
  cases hmatch : lookupAssoc s.moduleFunctionCache E with
  | some l =>
    refine ⟨mods, ?_⟩
    simp only [dispatchEvent, hmatch]
    exact hmods
  | none =>
    simp only [dispatchEvent, hmatch]
    split
    · exact ⟨mods, hmods⟩
    · exact ⟨mods, lookupAssoc_append_some hmods⟩

theorem filter_ne_eraseFirstByName (n : String) (l : List ScriptModule) :
    (eraseFirstByName n l).filter (fun m => decide (m.name ≠ n)) =
      l.filter (fun m => decide (m.name ≠ n)) := by
  simp only [ne_eq, decide_not]
  induction l with
  | nil => rfl
  | cons m rest ih =>
    by_cases hm : m.name = n
    · rw [eraseFirstByName, if_pos hm, List.filter_cons]
      simp [hm]
    · rw [eraseFirstByName, if_neg hm, List.filter_cons, List.filter_cons]
      simp [hm, ih]

theorem dispatch_scans_of_unresolved (env : PyEnv) (E : String) (s : ManagerState)
    (h : lookupAssoc s.moduleFunctionCache E = none) :
    (dispatchEvent env E s).scannedRegistry = true := by
  simp only [dispatchEvent, h]

/-! ### The claims -/

/-- C9: if `load_script(path)` fails to import the module, the operation
logs the error and leaves all state unchanged — the Registry and the Cache
after the call equal the ones before it — and the call returns normally
(the exception is caught inside `load_script`). -/
theorem load_script_import_failure_state_unchanged
    (env : PyEnv) (moduleName absolutePath relativePath : String) (s : ManagerState)
    (h : env.importSpec moduleName = none) :
    loadScript env moduleName absolutePath relativePath s = s := by
  simp only [loadScript, h]

theorem load_script_import_failure_state_unchanged_witness :
    loadScript envAB "c" "/s/c.py" "s/c.py" stateAB = stateAB :=
  load_script_import_failure_state_unchanged envAB "c" "/s/c.py" "s/c.py" stateAB (by decide)

/-- C6: if the Cache holds the key `E` with an empty list, `dispatch_event(E)`
invokes no handler, does not traverse the Registry, and leaves the state
unchanged; and, in general, no dispatch ever removes a key from the Cache. -/
theorem dispatch_empty_entry_noop_and_keys_persist
    (env : PyEnv) (E : String) (s : ManagerState)
    (h : lookupAssoc s.moduleFunctionCache E = some []) :
    ((dispatchEvent env E s).invoked = [] ∧
     (dispatchEvent env E s).scannedRegistry = false ∧
     (dispatchEvent env E s).state = s) ∧
    ∀ (env' : PyEnv) (E' E'' : String) (s' : ManagerState) (mods : List ScriptModule),
      lookupAssoc s'.moduleFunctionCache E'' = some mods →
      ∃ mods', lookupAssoc (dispatchEvent env' E' s').state.moduleFunctionCache E'' = some mods' := by
  constructor
  · simp [dispatchEvent, h, dispatchHitLoop]
  · intro env' E' E'' s' mods hmods
    exact dispatch_keeps_cache_keys env' E' E'' s' hmods

theorem dispatch_empty_entry_noop_and_keys_persist_witness :
    (dispatchEvent envSwap "on_tick" stateEmptyEntry).invoked = [] ∧
    (dispatchEvent envSwap "on_tick" stateEmptyEntry).scannedRegistry = false ∧
    (dispatchEvent envSwap "on_tick" stateEmptyEntry).state = stateEmptyEntry :=
  (dispatch_empty_entry_noop_and_keys_persist envSwap "on_tick" stateEmptyEntry (by decide)).1

/-- C7: after a cache-miss `dispatch_event(E)`, the Cache contains the key
`E` iff the provisional list (`valid_modules`) collected during the Registry
traversal is non-empty; when it is empty no entry is stored and a later
dispatch of `E` performs a full Registry scan again. -/
theorem dispatch_miss_caches_iff_provisional_nonempty
    (env : PyEnv) (E : String) (s : ManagerState)
    (h : lookupAssoc s.moduleFunctionCache E = none) :
    ((dispatchMissLoop env s.attrs E (s.loadedModules.map Prod.snd)).2 = [] →
        lookupAssoc (dispatchEvent env E s).state.moduleFunctionCache E = none ∧
        ∀ env' : PyEnv, (dispatchEvent env' E (dispatchEvent env E s).state).scannedRegistry = true) ∧
    ((dispatchMissLoop env s.attrs E (s.loadedModules.map Prod.snd)).2 ≠ [] →
        lookupAssoc (dispatchEvent env E s).state.moduleFunctionCache E =
          some (dispatchMissLoop env s.attrs E (s.loadedModules.map Prod.snd)).2) := by
  constructor
  · intro hnil
    have hstill : lookupAssoc (dispatchEvent env E s).state.moduleFunctionCache E = none := by
      simp only [dispatchEvent, h, hnil]
      exact h
    exact ⟨hstill, fun env' => dispatch_scans_of_unresolved env' E _ hstill⟩
  · intro hne
    have hempty : (dispatchMissLoop env s.attrs E (s.loadedModules.map Prod.snd)).2.isEmpty = false := by
      cases hval : (dispatchMissLoop env s.attrs E (s.loadedModules.map Prod.snd)).2 with
      | nil => exact absurd hval hne
      | cons a t => rfl
    simp only [dispatchEvent, h, hempty]
    rw [if_neg (by simp [hempty])]
    rw [lookupAssoc_append_none _ h]
    simp [lookupAssoc]

theorem dispatch_miss_caches_iff_provisional_nonempty_witness :
    lookupAssoc stateAB.moduleFunctionCache "on_tick" = none ∧
    (dispatchMissLoop envAB stateAB.attrs "on_tick" (stateAB.loadedModules.map Prod.snd)).2 ≠ [] ∧
    lookupAssoc (dispatchEvent envAB "on_tick" stateAB).state.moduleFunctionCache "on_tick" =
      some (dispatchMissLoop envAB stateAB.attrs "on_tick" (stateAB.loadedModules.map Prod.snd)).2 :=
  ⟨by decide, by decide,
    (dispatch_miss_caches_iff_provisional_nonempty envAB "on_tick" stateAB (by decide)).2 (by decide)⟩

/-- C5: during a single `dispatch_event(E)`, every record among those the
call iterates over (the cached entry on a hit, the whole Registry on a miss)
whose module exposes the event attribute has its handler invoked — for
*every* runtime oracle, in particular ones where any other handler (or this
one) raises: exceptions are caught per-handler and the loop continues. -/
theorem dispatch_handler_isolation
    (env : PyEnv) (E : String) (s : ManagerState) (m : ScriptModule)
    (hm : m ∈ consideredRecords s E)
    (hattr : (s.attrs m.handle).contains E = true) :
    m ∈ (dispatchEvent env E s).invoked := by
  cases hmatch : lookupAssoc s.moduleFunctionCache E with
  | some mods =>
    simp only [consideredRecords, hmatch] at hm
    simp only [dispatchEvent, hmatch]
    exact dispatchHitLoop_mem hm hattr
  | none =>
    simp only [consideredRecords, hmatch] at hm
    simp only [dispatchEvent, hmatch]
    exact dispatchMissLoop_invoked_mem hm hattr

theorem dispatch_handler_isolation_witness :
    recB ∈ (dispatchEvent envAB "on_tick" stateAB).invoked :=
  dispatch_handler_isolation envAB "on_tick" stateAB recB (by decide) (by decide)

/-- C3 counterexample: the state after `load a` / `dispatch on_tick` /
duplicate `load a` is reachable by the host operations themselves and its
`on_tick` entry holds two records named `a`.  A then-failing
`reload_script("a")` erases only the *first* name match per entry
(ScriptManager.h:120-128), so afterwards the Registry still binds `a` to
the handle-1 record — and that very record is still present in the
`on_tick` Cache entry, contradicting "absent from every Cache entry". -/
theorem reload_failure_stale_record_counterexample :
    runOps [(envDup, HostOp.loadOp "a" "/s/a.py" "s/a.py"),
            (envDup, HostOp.dispatchOp "on_tick"),
            (envDup, HostOp.loadOp "a" "/s/a.py" "s/a.py")] initState = stateDupA ∧
    lookupAssoc stateDupA.loadedModules "a" = some ⟨"a", 1, "/s/a.py", "s/a.py"⟩ ∧
    envDup.reloadSpec 1 = none ∧
    (reloadScript envDup "a" stateDupA).loadedModules = stateDupA.loadedModules ∧
    lookupAssoc (reloadScript envDup "a" stateDupA).moduleFunctionCache "on_tick" =
      some [⟨"a", 1, "/s/a.py", "s/a.py"⟩] :=
  ⟨rfl, by decide, by decide, by decide, by decide⟩

/-- C3 amended: when `reload_script(module_name)` is called on a loaded
module and the runtime reload fails, the record stays in the Registry
(which is left entirely unchanged); and *provided* every Cache entry holds
at most one record per name — as in every state reached without a
duplicate-name `load_script`; see the counterexample for why the proviso is
needed — the record is absent from every Cache entry, the entries having
been cleared before the reload was attempted. -/
theorem reload_failure_registry_kept_cache_cleared
    (env : PyEnv) (n : String) (s : ManagerState) (script : ScriptModule)
    (hfind : lookupAssoc s.loadedModules n = some script)
    (hname : script.name = n)
    (hfail : env.reloadSpec script.handle = none)
    (huniq : ∀ p ∈ s.moduleFunctionCache, (p.2.map ScriptModule.name).Nodup) :
    (reloadScript env n s).loadedModules = s.loadedModules ∧
    ∀ e mods, lookupAssoc (reloadScript env n s).moduleFunctionCache e = some mods →
      ∀ m ∈ mods, m.name ≠ n := by
  refine ⟨by simp only [reloadScript, hfind, hfail], ?_⟩
  intro e mods hlook m hm
  simp only [reloadScript, hfind, hfail] at hlook
  rw [lookupAssoc_removeFromAllEntries] at hlook
  cases hcache : lookupAssoc s.moduleFunctionCache e with
  | none => rw [hcache] at hlook; cases hlook
  | some mods0 =>
    rw [hcache] at hlook
    have hmods : eraseFirstByName script.name mods0 = mods := by simpa using hlook
    rw [← hmods] at hm
    have hne := not_named_of_mem_eraseFirstByName
      (huniq (e, mods0) (lookupAssoc_mem hcache)) m hm
    rw [hname] at hne
    exact hne

theorem reload_failure_registry_kept_cache_cleared_witness :
    (reloadScript envAB "a" (dispatchEvent envAB "on_tick" stateAB).state).loadedModules =
      (dispatchEvent envAB "on_tick" stateAB).state.loadedModules ∧
    ∀ e mods,
      lookupAssoc (reloadScript envAB "a"
          (dispatchEvent envAB "on_tick" stateAB).state).moduleFunctionCache e = some mods →
      ∀ m ∈ mods, m.name ≠ "a" :=
  reload_failure_registry_kept_cache_cleared envAB "a"
    (dispatchEvent envAB "on_tick" stateAB).state recA
    (by decide) (by decide) (by decide) (by decide)

/-- C8: when `reload_script` succeeds, each pre-existing Cache entry becomes
the old list with the record's (first) occurrence erased, with the record
appended at the end exactly when the reloaded module exposes the entry's
event name; consequently the relative order of all records with other names
is unchanged. -/
theorem reload_success_appends_and_preserves_order
    (env : PyEnv) (n : String) (s : ManagerState) (script : ScriptModule)
    (newAttrs : List String)
    (hfind : lookupAssoc s.loadedModules n = some script)
    (hreload : env.reloadSpec script.handle = some newAttrs) :
    ∀ e mods, lookupAssoc s.moduleFunctionCache e = some mods →
      lookupAssoc (reloadScript env n s).moduleFunctionCache e =
        some (eraseFirstByName script.name mods ++
          (if newAttrs.contains e then [script] else [])) ∧
      (eraseFirstByName script.name mods ++
          (if newAttrs.contains e then [script] else [])).filter
            (fun m => decide (m.name ≠ script.name)) =
        mods.filter (fun m => decide (m.name ≠ script.name)) := by
  intro e mods hmods
  constructor
  · simp only [reloadScript, hfind, hreload]
    rw [lookupAssoc_addToMatchingEntries, lookupAssoc_removeFromAllEntries, hmods]
    cases hc : newAttrs.contains e with
    | true => simp [hc]
    | false => simp [hc]
  · rw [List.filter_append, filter_ne_eraseFirstByName]
    cases newAttrs.contains e <;> simp

theorem reload_success_appends_and_preserves_order_witness :
    lookupAssoc (reloadScript envSwap "a" stateSwapWarm).moduleFunctionCache "on_tick" =
      some (eraseFirstByName recA.name [recA] ++
        (if (["on_join"] : List String).contains "on_tick" then [recA] else [])) ∧
    (eraseFirstByName recA.name [recA] ++
        (if (["on_join"] : List String).contains "on_tick" then [recA] else [])).filter
          (fun m => decide (m.name ≠ recA.name)) =
      [recA].filter (fun m => decide (m.name ≠ recA.name)) :=
  reload_success_appends_and_preserves_order envSwap "a" stateSwapWarm recA ["on_join"]
    (by decide) (by decide) "on_tick" [recA] (by decide)

/-- C1 counterexample: under `envAB`, scripts `a` and `b` both expose
`on_tick` and `a`'s handler raises.  The first (cache-miss) dispatch invokes
both handlers, yet the Cache entry stored for `on_tick` is `[b]` only —
`a` was *not* added to the provisional list (the `push_back` sits after the
invocation inside the `try`) — and a second dispatch invokes only `b`,
contradicting the claim that the raising module is still cached and
re-invoked. -/
theorem dispatch_miss_raising_handler_counterexample :
    envAB.raises recA.handle "on_tick" = true ∧
    (stateAB.attrs recA.handle).contains "on_tick" = true ∧
    lookupAssoc stateAB.moduleFunctionCache "on_tick" = none ∧
    (dispatchEvent envAB "on_tick" stateAB).invoked = [recA, recB] ∧
    lookupAssoc (dispatchEvent envAB "on_tick" stateAB).state.moduleFunctionCache "on_tick" =
      some [recB] ∧
    recA ∉ [recB] ∧
    (dispatchEvent envAB "on_tick" (dispatchEvent envAB "on_tick" stateAB).state).invoked =
      [recB] := by
  decide

/-- C1 amended: during a cache-miss `dispatch_event(E)`, a Registry module
whose handler exists and raises *is* invoked, but it is *not* added to the
provisional list, so the Cache entry stored for `E` (if any) does not
contain it. -/
theorem dispatch_miss_raising_handler_not_cached
    (env : PyEnv) (E : String) (s : ManagerState) (m : ScriptModule)
    (hmiss : lookupAssoc s.moduleFunctionCache E = none)
    (hm : m ∈ s.loadedModules.map Prod.snd)
    (hattr : (s.attrs m.handle).contains E = true)
    (hraise : env.raises m.handle E = true) :
    m ∈ (dispatchEvent env E s).invoked ∧
    ∀ mods, lookupAssoc (dispatchEvent env E s).state.moduleFunctionCache E = some mods →
      m ∉ mods := by
  constructor
  · simp only [dispatchEvent, hmiss]
    exact dispatchMissLoop_invoked_mem hm hattr
  · intro mods hmods hmem
    simp only [dispatchEvent, hmiss] at hmods
    by_cases hempty :
        (dispatchMissLoop env s.attrs E (s.loadedModules.map Prod.snd)).2.isEmpty = true
    · rw [if_pos hempty, hmiss] at hmods
      cases hmods
    · rw [if_neg hempty, lookupAssoc_append_none _ hmiss] at hmods
      have hval : mods = (dispatchMissLoop env s.attrs E (s.loadedModules.map Prod.snd)).2 := by
        simpa [lookupAssoc] using hmods.symm
      subst hval
      have hspec := (dispatchMissLoop_valid_spec m hmem).2
      rw [hraise] at hspec
      cases hspec

theorem dispatch_miss_raising_handler_not_cached_witness :
    recA ∈ (dispatchEvent envAB "on_tick" stateAB).invoked ∧
    ∀ mods,
      lookupAssoc (dispatchEvent envAB "on_tick" stateAB).state.moduleFunctionCache "on_tick" =
        some mods →
      recA ∉ mods :=
  dispatch_miss_raising_handler_not_cached envAB "on_tick" stateAB recA
    (by decide) (by decide) (by decide) (by decide)

/-- C2 counterexample: load `a`, dispatch `on_tick` (resolving the entry to
the record with handle 0), then `load_script` a file whose stem is again
`a`.  The Registry entry is overwritten, but the *old* record is not removed
from the cache entry: the entry now holds two records named `a`, so the
at-most-once-per-entry invariant fails after a duplicate-name load. -/
theorem duplicate_load_cache_entry_counterexample :
    lookupAssoc stateDupA.moduleFunctionCache "on_tick" =
      some [⟨"a", 0, "/s/a.py", "s/a.py"⟩, ⟨"a", 1, "/s/a.py", "s/a.py"⟩] ∧
    countNamed "a" ((lookupAssoc stateDupA.moduleFunctionCache "on_tick").getD []) = 2 ∧
    lookupAssoc stateDupA.loadedModules "a" = some ⟨"a", 1, "/s/a.py", "s/a.py"⟩ := by
  decide

/-! ### Invariant-preservation machinery -/

theorem mem_insertAssoc {α : Type} {l : List (String × α)} {k : String} {v : α}
    {p : String × α} (hp : p ∈ insertAssoc l k v) : p ∈ l ∨ p = (k, v) := by
  induction l with
  | nil => simpa [insertAssoc] using hp
  | cons q rest ih =>
    obtain ⟨k', v'⟩ := q
    by_cases hk : k' = k
    · subst hk
      rw [insertAssoc, if_pos rfl] at hp
      rcases List.mem_cons.mp hp with h1 | h1
      · exact Or.inr h1
      · exact Or.inl (List.mem_cons_of_mem _ h1)
    · rw [insertAssoc, if_neg hk] at hp
      rcases List.mem_cons.mp hp with h1 | h1
      · exact Or.inl (h1 ▸ List.mem_cons_self _ _)
      · rcases ih h1 with h2 | h2
        · exact Or.inl (List.mem_cons_of_mem _ h2)
        · exact Or.inr h2

theorem keys_mem_insertAssoc {α : Type} {l : List (String × α)} {k x : String} {v : α}
    (hx : x ∈ (insertAssoc l k v).map Prod.fst) : x ∈ l.map Prod.fst ∨ x = k := by
  rcases List.mem_map.mp hx with ⟨p, hp, hpx⟩
  rcases mem_insertAssoc hp with h1 | h1
  · exact Or.inl (hpx ▸ List.mem_map_of_mem _ h1)
  · subst h1
    exact Or.inr hpx.symm

theorem keys_insertAssoc_nodup {α : Type} {l : List (String × α)} (k : String) (v : α)
    (h : (l.map Prod.fst).Nodup) : ((insertAssoc l k v).map Prod.fst).Nodup := by
  induction l with
  | nil => simp [insertAssoc]
  | cons q rest ih =>
    obtain ⟨k', v'⟩ := q
    rw [List.map_cons, List.nodup_cons] at h
    by_cases hk : k' = k
    · subst hk
      rw [insertAssoc, if_pos rfl, List.map_cons, List.nodup_cons]
      exact ⟨h.1, h.2⟩
    · rw [insertAssoc, if_neg hk, List.map_cons, List.nodup_cons]
      refine ⟨?_, ih h.2⟩
      intro hmem
      rcases keys_mem_insertAssoc hmem with h1 | h1
      · exact h.1 h1
      · exact hk h1

theorem mem_removeFromAllEntries {n : String} {c : List (String × List ScriptModule)}
    {p : String × List ScriptModule} (hp : p ∈ removeFromAllEntries n c) :
    ∃ q ∈ c, p.1 = q.1 ∧ p.2 = eraseFirstByName n q.2 := by
  rcases List.mem_map.mp hp with ⟨q, hq, hqp⟩
  exact ⟨q, hq, by rw [← hqp], by rw [← hqp]⟩

theorem mem_addToMatchingEntries {attrList : List String} {script : ScriptModule}
    {c : List (String × List ScriptModule)} {p : String × List ScriptModule}
    (hp : p ∈ addToMatchingEntries attrList script c) :
    ∃ q ∈ c, p.1 = q.1 ∧ (p.2 = q.2 ∨ p.2 = q.2 ++ [script]) := by
  rcases List.mem_map.mp hp with ⟨q, hq, hqp⟩
  refine ⟨q, hq, by rw [← hqp], ?_⟩
  rw [← hqp]
  by_cases hc : attrList.contains q.1 = true
  · exact Or.inr (by rw [if_pos hc])
  · exact Or.inl (by rw [if_neg hc])

theorem lookup_ne_none_of_mem_values {s : ManagerState} (hwf : registryWF s)
    {m : ScriptModule} (hm : m ∈ s.loadedModules.map Prod.snd) :
    lookupAssoc s.loadedModules m.name ≠ none := by
  rcases List.mem_map.mp hm with ⟨q, hq, hqm⟩
  have hname := hwf q hq
  rw [← hqm, hname]
  exact lookupAssoc_ne_none_of_mem (show (q.1, q.2) ∈ s.loadedModules from hq)

theorem values_names_nodup {s : ManagerState} (hwf : registryWF s)
    (hnd : registryKeysNodup s) :
    ((s.loadedModules.map Prod.snd).map ScriptModule.name).Nodup := by
  rw [List.map_map]
  have hmaps : s.loadedModules.map (ScriptModule.name ∘ Prod.snd) =
      s.loadedModules.map Prod.fst := by
    apply List.map_congr_left
    intro p hp
    exact hwf p hp
  rw [hmaps]
  exact hnd

theorem loadScript_registryWF (env : PyEnv) (n a r : String) {s : ManagerState}
    (h : registryWF s) : registryWF (loadScript env n a r s) := by
  cases himp : env.importSpec n with
  | none => simpa [loadScript, himp] using h
  | some attrList =>
    intro p hp
    simp only [loadScript, himp] at hp
    rcases mem_insertAssoc hp with h1 | h1
    · exact h p h1
    · subst h1
      rfl

theorem loadScript_registryKeysNodup (env : PyEnv) (n a r : String) {s : ManagerState}
    (h : registryKeysNodup s) : registryKeysNodup (loadScript env n a r s) := by
  cases himp : env.importSpec n with
  | none => simpa [loadScript, himp] using h
  | some attrList =>
    simp only [registryKeysNodup, loadScript, himp]
    exact keys_insertAssoc_nodup _ _ h

theorem loadScript_cacheSubset (env : PyEnv) (n a r : String) {s : ManagerState}
    (h : cacheSubset s) : cacheSubset (loadScript env n a r s) := by
  cases himp : env.importSpec n with
  | none => simpa [loadScript, himp] using h
  | some attrList =>
    intro p hp m hm
    simp only [loadScript, himp] at hp ⊢
    rcases mem_addToMatchingEntries hp with ⟨q, hq, _, hval⟩
    rcases hval with hval | hval
    · rw [hval] at hm
      exact lookupAssoc_insert_ne_none _ _ (h q hq m hm)
    · rw [hval] at hm
      rcases List.mem_append.mp hm with h1 | h1
      · exact lookupAssoc_insert_ne_none _ _ (h q hq m h1)
      · have hms : m.name = n := by
          rcases List.mem_singleton.mp h1 with h2
          rw [h2]
        rw [hms, lookupAssoc_insert_self]
        exact Option.noConfusion

theorem loadScript_entryNamesUnique (env : PyEnv) (n a r : String) {s : ManagerState}
    (hsub : cacheSubset s) (huniq : entryNamesUnique s) (hok : loadOkFrom env s n) :
    entryNamesUnique (loadScript env n a r s) := by
  cases himp : env.importSpec n with
  | none => simpa [loadScript, himp] using huniq
  | some attrList =>
    rcases hok with hfail | hnew
    · rw [himp] at hfail
      cases hfail
    · intro p hp
      simp only [loadScript, himp] at hp
      rcases mem_addToMatchingEntries hp with ⟨q, hq, _, hval⟩
      rcases hval with hval | hval
      · rw [hval]
        exact huniq q hq
      · rw [hval, List.map_append, List.nodup_append]
        refine ⟨huniq q hq, List.nodup_singleton _, ?_⟩
        intro x hx hx'
        rcases List.mem_singleton.mp hx' with h2
        rcases List.mem_map.mp hx with ⟨m, hm, hmx⟩
        have hmn : m.name = n := by rw [hmx, h2]
        have := hsub q hq m hm
        rw [hmn, hnew] at this
        exact this rfl

theorem reloadScript_loadedModules (env : PyEnv) (n : String) (s : ManagerState) :
    (reloadScript env n s).loadedModules = s.loadedModules := by
  cases hfind : lookupAssoc s.loadedModules n with
  | none => simp [reloadScript, hfind]
  | some script =>
    cases hrel : env.reloadSpec script.handle with
    | none => simp [reloadScript, hfind, hrel]
    | some newAttrs => simp [reloadScript, hfind, hrel]

theorem reloadScript_cacheSubset (env : PyEnv) (n : String) {s : ManagerState}
    (hwf : registryWF s) (h : cacheSubset s) : cacheSubset (reloadScript env n s) := by
  intro p hp m hm
  rw [reloadScript_loadedModules]
  cases hfind : lookupAssoc s.loadedModules n with
  | none =>
    simp only [reloadScript, hfind] at hp
    exact h p hp m hm
  | some script =>
    have hscript : lookupAssoc s.loadedModules script.name ≠ none := by
      rw [hwf (n, script) (lookupAssoc_mem hfind)]
      rw [hfind]
      exact Option.noConfusion
    cases hrel : env.reloadSpec script.handle with
    | none =>
      simp only [reloadScript, hfind, hrel] at hp
      rcases mem_removeFromAllEntries hp with ⟨q, hq, _, hval⟩
      rw [hval] at hm
      exact h q hq m ((eraseFirstByName_sublist _ _).subset hm)
    | some newAttrs =>
      simp only [reloadScript, hfind, hrel] at hp
      rcases mem_addToMatchingEntries hp with ⟨q, hq, _, hval⟩
      rcases mem_removeFromAllEntries hq with ⟨q', hq', _, hval'⟩
      have hmq : m ∈ q.2 ∨ m = script := by
        rcases hval with hval | hval
        · rw [hval] at hm
          exact Or.inl hm
        · rw [hval] at hm
          rcases List.mem_append.mp hm with h1 | h1
          · exact Or.inl h1
          · exact Or.inr (List.mem_singleton.mp h1)
      rcases hmq with h1 | h1
      · rw [hval'] at h1
        exact h q' hq' m ((eraseFirstByName_sublist _ _).subset h1)
      · rw [h1]
        exact hscript

theorem reloadScript_entryNamesUnique (env : PyEnv) (n : String) {s : ManagerState}
    (huniq : entryNamesUnique s) : entryNamesUnique (reloadScript env n s) := by
  intro p hp
  cases hfind : lookupAssoc s.loadedModules n with
  | none =>
    simp only [reloadScript, hfind] at hp
    exact huniq p hp
  | some script =>
    cases hrel : env.reloadSpec script.handle with
    | none =>
      simp only [reloadScript, hfind, hrel] at hp
      rcases mem_removeFromAllEntries hp with ⟨q, hq, _, hval⟩
      rw [hval]
      exact names_nodup_eraseFirstByName _ (huniq q hq)
    | some newAttrs =>
      simp only [reloadScript, hfind, hrel] at hp
      rcases mem_addToMatchingEntries hp with ⟨q, hq, _, hval⟩
      rcases mem_removeFromAllEntries hq with ⟨q', hq', _, hval'⟩
      have hqnodup : (q.2.map ScriptModule.name).Nodup := by
        rw [hval']
        exact names_nodup_eraseFirstByName _ (huniq q' hq')
      rcases hval with hval | hval
      · rw [hval]
        exact hqnodup
      · rw [hval, List.map_append, List.nodup_append]
        refine ⟨hqnodup, List.nodup_singleton _, ?_⟩
        intro x hx hx'
        rcases List.mem_singleton.mp hx' with h2
        rcases List.mem_map.mp hx with ⟨m, hm, hmx⟩
        have hmname : m.name ≠ script.name := by
          rw [hval'] at hm
          exact not_named_of_mem_eraseFirstByName (huniq q' hq') m hm
        rw [hmx, h2] at hmname
        exact hmname rfl

theorem dispatch_state_loadedModules (env : PyEnv) (E : String) (s : ManagerState) :
    (dispatchEvent env E s).state.loadedModules = s.loadedModules := by
  cases hmatch : lookupAssoc s.moduleFunctionCache E with
  | some mods => simp [dispatchEvent, hmatch]
  | none => simp [dispatchEvent, hmatch]

theorem dispatch_cacheSubset (env : PyEnv) (E : String) {s : ManagerState}
    (hwf : registryWF s) (h : cacheSubset s) : cacheSubset (dispatchEvent env E s).state := by
  intro p hp m hm
  rw [dispatch_state_loadedModules]
  cases hmatch : lookupAssoc s.moduleFunctionCache E with
  | some mods =>
    simp only [dispatchEvent, hmatch] at hp
    exact h p hp m hm
  | none =>
    simp only [dispatchEvent, hmatch] at hp
    rcases hp' : (dispatchMissLoop env s.attrs E (s.loadedModules.map Prod.snd)).2.isEmpty with
      _ | _
    all_goals rw [hp'] at hp
    · rw [if_neg Bool.false_ne_true] at hp
      rcases List.mem_append.mp hp with h1 | h1
      · exact h p h1 m hm
      · rcases List.mem_singleton.mp h1 with h2
        rw [h2] at hm
        have hmv : m ∈ s.loadedModules.map Prod.snd :=
          (dispatchMissLoop_valid_sublist env s.attrs E _).subset hm
        exact lookup_ne_none_of_mem_values hwf hmv
    · rw [if_pos rfl] at hp
      exact h p hp m hm

theorem dispatch_entryNamesUnique (env : PyEnv) (E : String) {s : ManagerState}
    (hwf : registryWF s) (hnd : registryKeysNodup s) (huniq : entryNamesUnique s) :
    entryNamesUnique (dispatchEvent env E s).state := by
  intro p hp
  cases hmatch : lookupAssoc s.moduleFunctionCache E with
  | some mods =>
    simp only [dispatchEvent, hmatch] at hp
    exact huniq p hp
  | none =>
    simp only [dispatchEvent, hmatch] at hp
    rcases hp' : (dispatchMissLoop env s.attrs E (s.loadedModules.map Prod.snd)).2.isEmpty with
      _ | _
    all_goals rw [hp'] at hp
    · rw [if_neg Bool.false_ne_true] at hp
      rcases List.mem_append.mp hp with h1 | h1
      · exact huniq p h1
      · rcases List.mem_singleton.mp h1 with h2
        rw [h2]
        exact (values_names_nodup hwf hnd).sublist
          ((dispatchMissLoop_valid_sublist env s.attrs E _).map ScriptModule.name)
    · rw [if_pos rfl] at hp
      exact huniq p hp

theorem loadScripts_cons (env : PyEnv) (f : String × String × String)
    (rest : List (String × String × String)) (s : ManagerState) :
    loadScripts env (f :: rest) s = loadScripts env rest (loadScript env f.1 f.2.1 f.2.2 s) := rfl

theorem loadScript_SubInv (env : PyEnv) (n a r : String) {s : ManagerState}
    (h : SubInv s) : SubInv (loadScript env n a r s) :=
  ⟨loadScript_registryWF env n a r h.1, loadScript_cacheSubset env n a r h.2⟩

theorem reloadScript_SubInv (env : PyEnv) (n : String) {s : ManagerState}
    (h : SubInv s) : SubInv (reloadScript env n s) := by
  refine ⟨?_, reloadScript_cacheSubset env n h.1 h.2⟩
  intro p hp
  rw [reloadScript_loadedModules] at hp
  exact h.1 p hp

theorem dispatch_SubInv (env : PyEnv) (E : String) {s : ManagerState}
    (h : SubInv s) : SubInv (dispatchEvent env E s).state := by
  refine ⟨?_, dispatch_cacheSubset env E h.1 h.2⟩
  intro p hp
  rw [dispatch_state_loadedModules] at hp
  exact h.1 p hp

theorem loadScripts_SubInv (env : PyEnv) (files : List (String × String × String)) :
    ∀ {s : ManagerState}, SubInv s → SubInv (loadScripts env files s) := by
  induction files with
  | nil =>
    intro s h
    simpa [loadScripts] using h
  | cons f rest ih =>
    intro s h
    rw [loadScripts_cons]
    exact ih (loadScript_SubInv env f.1 f.2.1 f.2.2 h)

theorem step_SubInv (env : PyEnv) (op : HostOp) {s : ManagerState}
    (h : SubInv s) : SubInv (step env op s) := by
  cases op with
  | loadOp n a r => exact loadScript_SubInv env n a r h
  | loadAllOp files => exact loadScripts_SubInv env files h
  | reloadOp n => exact reloadScript_SubInv env n h
  | dispatchOp e => exact dispatch_SubInv env e h

theorem runOps_SubInv (ops : List (PyEnv × HostOp)) :
    ∀ {s : ManagerState}, SubInv s → SubInv (runOps ops s) := by
  induction ops with
  | nil =>
    intro s h
    simpa [runOps] using h
  | cons p rest ih =>
    intro s h
    obtain ⟨env, op⟩ := p
    rw [runOps]
    exact ih (step_SubInv env op h)

theorem initState_SubInv : SubInv initState := by
  constructor
  · intro p hp
    cases hp
  · intro p hp
    cases hp

theorem reachable_SubInv {s : ManagerState} (h : Reachable s) : SubInv s := by
  obtain ⟨ops, hops⟩ := h
  rw [← hops]
  exact runOps_SubInv ops initState_SubInv

theorem loadScript_StateInv (env : PyEnv) (n a r : String) {s : ManagerState}
    (h : StateInv s) (hok : loadOkFrom env s n) : StateInv (loadScript env n a r s) :=
  ⟨loadScript_registryWF env n a r h.1,
   loadScript_registryKeysNodup env n a r h.2.1,
   loadScript_cacheSubset env n a r h.2.2.1,
   loadScript_entryNamesUnique env n a r h.2.2.1 h.2.2.2 hok⟩

theorem reloadScript_StateInv (env : PyEnv) (n : String) {s : ManagerState}
    (h : StateInv s) : StateInv (reloadScript env n s) := by
  refine ⟨?_, ?_, reloadScript_cacheSubset env n h.1 h.2.2.1,
    reloadScript_entryNamesUnique env n h.2.2.2⟩
  · intro p hp
    rw [reloadScript_loadedModules] at hp
    exact h.1 p hp
  · show ((reloadScript env n s).loadedModules.map Prod.fst).Nodup
    rw [reloadScript_loadedModules]
    exact h.2.1

theorem dispatch_StateInv (env : PyEnv) (E : String) {s : ManagerState}
    (h : StateInv s) : StateInv (dispatchEvent env E s).state := by
  refine ⟨?_, ?_, dispatch_cacheSubset env E h.1 h.2.2.1,
    dispatch_entryNamesUnique env E h.1 h.2.1 h.2.2.2⟩
  · intro p hp
    rw [dispatch_state_loadedModules] at hp
    exact h.1 p hp
  · show ((dispatchEvent env E s).state.loadedModules.map Prod.fst).Nodup
    rw [dispatch_state_loadedModules]
    exact h.2.1

theorem loadScripts_StateInv (env : PyEnv) (files : List (String × String × String)) :
    ∀ {s : ManagerState}, StateInv s → NoDupLoadFiles env files s →
      StateInv (loadScripts env files s) := by
  induction files with
  | nil =>
    intro s h _
    simpa [loadScripts] using h
  | cons f rest ih =>
    intro s h hnd
    rw [loadScripts_cons]
    exact ih (loadScript_StateInv env f.1 f.2.1 f.2.2 h hnd.1) hnd.2

theorem step_StateInv (env : PyEnv) (op : HostOp) {s : ManagerState}
    (h : StateInv s) (hok : NoDupLoadStep env op s) : StateInv (step env op s) := by
  cases op with
  | loadOp n a r => exact loadScript_StateInv env n a r h hok
  | loadAllOp files => exact loadScripts_StateInv env files h hok
  | reloadOp n => exact reloadScript_StateInv env n h
  | dispatchOp e => exact dispatch_StateInv env e h

theorem runOps_StateInv (ops : List (PyEnv × HostOp)) :
    ∀ {s : ManagerState}, StateInv s → NoDupLoadRun ops s → StateInv (runOps ops s) := by
  induction ops with
  | nil =>
    intro s h _
    simpa [runOps] using h
  | cons p rest ih =>
    intro s h hnd
    obtain ⟨env, op⟩ := p
    rw [runOps]
    exact ih (step_StateInv env op h hnd.1) hnd.2

theorem initState_StateInv : StateInv initState := by
  refine ⟨?_, ?_, ?_, ?_⟩
  · intro p hp
    cases hp
  · simp [registryKeysNodup, initState]
  · intro p hp
    cases hp
  · intro p hp
    cases hp

/-- C4: in every reachable host state — after any sequence of `load_script`,
`load_scripts`, `reload_script` and `dispatch_event` calls from startup,
under arbitrary runtime behaviour — every record referenced from any Cache
entry is present in the Registry under its name. -/
theorem cache_subset_of_reachable {s : ManagerState} (h : Reachable s) : cacheSubset s :=
  (reachable_SubInv h).2

theorem cache_subset_of_reachable_witness :
    cacheSubset (runOps [(envAB, HostOp.loadOp "a" "/s/a.py" "s/a.py"),
      (envAB, HostOp.loadOp "b" "/s/b.py" "s/b.py"),
      (envAB, HostOp.dispatchOp "on_tick")] initState) :=
  cache_subset_of_reachable ⟨_, rfl⟩

/-- C2 amended: the at-most-once-per-entry invariant holds in every state
reached by a run in which no `load_script` call re-uses the stem of an
already-loaded module (a duplicate-name load appends a second record with
the same name to the matching cache entries — see the counterexample — so
the restriction is necessary). -/
theorem entry_names_unique_of_no_duplicate_load
    (ops : List (PyEnv × HostOp)) (h : NoDupLoadRun ops initState) :
    entryNamesUnique (runOps ops initState) :=
  (runOps_StateInv ops initState_StateInv h).2.2.2

theorem entry_names_unique_of_no_duplicate_load_witness :
    entryNamesUnique (runOps [(envAB, HostOp.loadOp "a" "/s/a.py" "s/a.py"),
      (envAB, HostOp.dispatchOp "on_tick")] initState) :=
  entry_names_unique_of_no_duplicate_load _ ⟨Or.inr rfl, trivial, trivial⟩

theorem dispatchHitLoopEffect_invoked (effect : ScriptModule → ManagerState → ManagerState)
    (event : String) (A : Nat → List String) :
    ∀ l : List ScriptModule,
      (∀ m st, ∀ m' ∈ l, (effect m st).attrs m'.handle = st.attrs m'.handle) →
      ∀ st : ManagerState, (∀ m' ∈ l, st.attrs m'.handle = A m'.handle) →
      (dispatchHitLoopEffect effect event l st).2 = dispatchHitLoop A event l := by
  intro l
  induction l with
  | nil =>
    intro _ st _
    rfl
  | cons m rest ih =>
    intro hpres st hagree
    rw [dispatchHitLoopEffect, dispatchHitLoop]
    have hm : st.attrs m.handle = A m.handle := hagree m (List.mem_cons_self _ _)
    have hrest : ∀ m' ∈ rest, (effect m st).attrs m'.handle = A m'.handle := by
      intro m' hm'
      rw [hpres m st m' (List.mem_cons_of_mem _ hm')]
      exact hagree m' (List.mem_cons_of_mem _ hm')
    have hpres' : ∀ a st', ∀ m'' ∈ rest, (effect a st').attrs m''.handle = st'.attrs m''.handle :=
      fun a st' m'' hm'' => hpres a st' m'' (List.mem_cons_of_mem _ hm'')
    by_cases hc : (A m.handle).contains event = true
    · rw [if_pos (by rw [hm]; exact hc), if_pos hc]
      show m :: (dispatchHitLoopEffect effect event rest (effect m st)).2 =
        m :: dispatchHitLoop A event rest
      rw [ih hpres' (effect m st) hrest]
    · rw [if_neg (by rw [hm]; exact hc), if_neg hc]
      exact ih hpres' st (fun m' hm' => hagree m' (List.mem_cons_of_mem _ hm'))

/-- C10: on a cache-hit dispatch the loop iterates over the copy of the
Cache entry taken when the call began, so re-entrant handlers that mutate
the host state — as long as they leave the runtime attribute tables of the
snapshot's modules alone, which `load_script`/`reload_script` of *other*
modules and any pure Cache/Registry mutation do — cannot change which
handlers the current dispatch invokes: the trace is exactly the effect-free
trace over the entry as it stood at call entry. -/
theorem dispatch_hit_snapshot_reentrancy
    (effect : ScriptModule → ManagerState → ManagerState) (E : String) (s : ManagerState)
    (h : ∀ m st, ∀ m' ∈ (lookupAssoc s.moduleFunctionCache E).getD [],
        (effect m st).attrs m'.handle = st.attrs m'.handle) :
    (dispatchEventReentrantHit effect E s).2 =
      dispatchHitLoop s.attrs E ((lookupAssoc s.moduleFunctionCache E).getD []) := by
  cases hmatch : lookupAssoc s.moduleFunctionCache E with
  | none => simp [dispatchEventReentrantHit, hmatch, dispatchHitLoop]
  | some mods =>
    rw [hmatch] at h
    simp only [Option.getD_some] at h
    simp only [dispatchEventReentrantHit, hmatch, Option.getD_some]
    exact dispatchHitLoopEffect_invoked effect E s.attrs mods h s (fun m' _ => rfl)

theorem dispatch_hit_snapshot_reentrancy_witness :
    (dispatchEventReentrantHit (fun _ st => { st with moduleFunctionCache := [] })
        "on_tick" stateSwapWarm).2 =
      dispatchHitLoop stateSwapWarm.attrs "on_tick"
        ((lookupAssoc stateSwapWarm.moduleFunctionCache "on_tick").getD []) :=
  dispatch_hit_snapshot_reentrancy _ "on_tick" stateSwapWarm (fun _ _ _ _ => rfl)
